import Mathlib

/-!
# Verification of the GFS retention classifier (`grandfatherson` in `backup.py`)

This file gives a shallow embedding of the retention-classification
algorithm of the backup script and proves or refutes the specified
properties.  The embedding mirrors the Python source:

* `DateTime` models `datetime.datetime` (to second resolution; the
  orchestration layer only ever produces microsecond-zero datetimes
  through `strptime` with second-level formats).  Python compares
  datetimes lexicographically by field, which `DateTime.lexLe` models.
* `strftime` label computations (`%Y-%m-%d-%H-%M` and friends,
  including `%W`) are modelled character-faithfully as `String`s.
* The imperative scan loop of `grandfatherson` becomes the structural
  recursion `scanAux` (fuel = number of remaining loop iterations).
* `keep_flags[0] = True` on an empty list raises `IndexError` in
  Python; the embedding therefore returns `Option`, with `none`
  modelling the exception.
-/

/-- Model of `datetime.datetime` restricted to second resolution. -/
structure DateTime where
  year : Nat
  month : Nat
  day : Nat
  hour : Nat
  minute : Nat
  second : Nat
deriving DecidableEq, Repr

namespace DateTime

/-- Python's `datetime` constructor validates its fields; a value that
can exist at runtime satisfies these bounds (day upper bound relaxed to
31: the month-dependent bound is not needed by any property here). -/
def Valid (d : DateTime) : Prop :=
  1 ≤ d.year ∧ d.year ≤ 9999 ∧ 1 ≤ d.month ∧ d.month ≤ 12 ∧
    1 ≤ d.day ∧ d.day ≤ 31 ∧ d.hour ≤ 23 ∧ d.minute ≤ 59 ∧ d.second ≤ 59

instance (d : DateTime) : Decidable d.Valid := by
  unfold Valid; infer_instance

/-- The comparison key: Python datetimes compare lexicographically by
(year, month, day, hour, minute, second). -/
def keyList (d : DateTime) : List Nat :=
  [d.year, d.month, d.day, d.hour, d.minute, d.second]

end DateTime

/-- Boolean lexicographic `≤` on lists of naturals (used on the
six-element field lists of two datetimes). -/
def lexLe : List Nat → List Nat → Bool
  | [], [] => true
  | a :: as, b :: bs => a < b || (a == b && lexLe as bs)
  | _, _ => true

theorem lexLe_refl : ∀ as : List Nat, lexLe as as = true
  | [] => rfl
  | _ :: as => by simp [lexLe, lexLe_refl as]

theorem lexLe_trans : ∀ as bs cs : List Nat,
    as.length = bs.length → bs.length = cs.length →
    lexLe as bs = true → lexLe bs cs = true → lexLe as cs = true
  | [], [], [], _, _, _, _ => rfl
  | a :: as, b :: bs, c :: cs, hab, hbc, h1, h2 => by
    simp only [lexLe, Bool.or_eq_true, Bool.and_eq_true, beq_iff_eq,
      decide_eq_true_eq] at h1 h2 ⊢
    rcases h1 with h1 | ⟨rfl, h1⟩
    · rcases h2 with h2 | ⟨rfl, _⟩
      · exact Or.inl (h1.trans h2)
      · exact Or.inl h1
    · rcases h2 with h2 | ⟨rfl, h2⟩
      · exact Or.inl h2
      · exact Or.inr ⟨rfl, lexLe_trans as bs cs (by simpa using hab) (by simpa using hbc) h1 h2⟩

theorem lexLe_antisymm : ∀ as bs : List Nat, as.length = bs.length →
    lexLe as bs = true → lexLe bs as = true → as = bs
  | [], [], _, _, _ => rfl
  | a :: as, b :: bs, hab, h1, h2 => by
    simp only [lexLe, Bool.or_eq_true, Bool.and_eq_true, beq_iff_eq,
      decide_eq_true_eq] at h1 h2
    rcases h1 with h1 | ⟨rfl, h1⟩
    · rcases h2 with h2 | ⟨rfl, _⟩
      · omega
      · omega
    · rcases h2 with h2 | ⟨_, h2⟩
      · omega
      · rw [lexLe_antisymm as bs (by simpa using hab) h1 h2]

theorem lexLe_total : ∀ as bs : List Nat, as.length = bs.length →
    lexLe as bs = true ∨ lexLe bs as = true
  | [], [], _ => Or.inl rfl
  | a :: as, b :: bs, hab => by
    simp only [lexLe, Bool.or_eq_true, Bool.and_eq_true, beq_iff_eq,
      decide_eq_true_eq]
    rcases Nat.lt_trichotomy a b with h | rfl | h
    · exact Or.inl (Or.inl h)
    · rcases lexLe_total as bs (by simpa using hab) with h | h
      · exact Or.inl (Or.inr ⟨rfl, h⟩)
      · exact Or.inr (Or.inr ⟨rfl, h⟩)
    · exact Or.inr (Or.inl h)

namespace DateTime

theorem keyList_length (d : DateTime) : d.keyList.length = 6 := rfl

theorem keyList_inj {a b : DateTime} (h : a.keyList = b.keyList) : a = b := by
  cases a; cases b
  simp only [keyList, List.cons.injEq, and_true] at h
  obtain ⟨h1, h2, h3, h4, h5, h6⟩ := h
  subst h1; subst h2; subst h3; subst h4; subst h5; subst h6
  rfl

instance : LinearOrder DateTime where
  le a b := lexLe a.keyList b.keyList = true
  le_refl a := lexLe_refl a.keyList
  le_trans a b c := lexLe_trans a.keyList b.keyList c.keyList rfl rfl
  le_antisymm a b h1 h2 := keyList_inj (lexLe_antisymm a.keyList b.keyList rfl h1 h2)
  le_total a b := lexLe_total a.keyList b.keyList rfl
  decidableLE a b := instDecidableEqBool (lexLe a.keyList b.keyList) true

theorem le_def (a b : DateTime) : (a ≤ b) = (lexLe a.keyList b.keyList = true) := rfl

end DateTime

/-- The relation by which `sorted(dts, reverse=True)` orders the list:
descending, i.e. each element is `≥` the next. -/
def dge (a b : DateTime) : Prop := b ≤ a

instance : DecidableRel dge := fun (a b : DateTime) =>
  inferInstanceAs (Decidable (lexLe b.keyList a.keyList = true))

instance : IsTotal DateTime dge := ⟨fun a b => le_total b a⟩

instance : IsTrans DateTime dge := ⟨fun _ _ _ h1 h2 => le_trans h2 h1⟩

instance : IsAntisymm DateTime dge := ⟨fun _ _ h1 h2 => le_antisymm h2 h1⟩

/-- `sorted(dts, reverse=True)`: the input sorted most-recent-first. -/
def sortDesc (dts : List DateTime) : List DateTime :=
  List.insertionSort dge dts

theorem sortDesc_perm (dts : List DateTime) : List.Perm (sortDesc dts) dts :=
  List.perm_insertionSort dge dts

theorem sortDesc_sorted (dts : List DateTime) : (sortDesc dts).Sorted dge :=
  List.sorted_insertionSort dge dts

/-- Descending sort results agree on permuted inputs (the sorted value
sequence is unique because `dge` is antisymmetric). -/
theorem sortDesc_eq_of_perm {l1 l2 : List DateTime} (h : List.Perm l1 l2) :
    sortDesc l1 = sortDesc l2 :=
  List.eq_of_perm_of_sorted ((sortDesc_perm l1).trans (h.trans (sortDesc_perm l2).symm))
    (sortDesc_sorted l1) (sortDesc_sorted l2)

/-! ## strftime label formatting

Character-faithful models of the five `strftime` format strings from
`timelines`.  Fields `%m %d %H %M %W` are zero-padded to two digits,
`%Y` to four digits (glibc behaviour for the years a valid `datetime`
can hold). -/

/-- Zero-pad a natural below 100 to two digits (`%m`, `%d`, `%H`, `%M`, `%W`). -/
def pad2 (n : Nat) : String :=
  if n < 10 then "0" ++ toString n else toString n

/-- Zero-pad a year to four digits (`%Y`). -/
def pad4 (n : Nat) : String :=
  if n < 10 then "000" ++ toString n
  else if n < 100 then "00" ++ toString n
  else if n < 1000 then "0" ++ toString n
  else toString n

/-- `dt.strftime("%Y-%m-%d-%H-%M")`. -/
def fmtYmdHM (d : DateTime) : String :=
  pad4 d.year ++ "-" ++ pad2 d.month ++ "-" ++ pad2 d.day ++ "-" ++
    pad2 d.hour ++ "-" ++ pad2 d.minute

/-- `dt.strftime("%Y-%m-%d-%H")`. -/
def fmtYmdH (d : DateTime) : String :=
  pad4 d.year ++ "-" ++ pad2 d.month ++ "-" ++ pad2 d.day ++ "-" ++ pad2 d.hour

/-- `dt.strftime("%Y-%m-%d")`. -/
def fmtYmd (d : DateTime) : String :=
  pad4 d.year ++ "-" ++ pad2 d.month ++ "-" ++ pad2 d.day

/-- `dt.strftime("%Y-%m")`. -/
def fmtYm (d : DateTime) : String :=
  pad4 d.year ++ "-" ++ pad2 d.month

/-- Gregorian leap-year test. -/
def isLeap (y : Nat) : Bool :=
  (y % 4 == 0 && y % 100 != 0) || y % 400 == 0

/-- Days in the months strictly before month `m` of a common year. -/
def cumDaysBefore (m : Nat) : Nat :=
  [0, 0, 31, 59, 90, 120, 151, 181, 212, 243, 273, 304, 334].getD m 0

/-- Zero-based day of the year (`tm_yday`): 0 for January 1st. -/
def dayOfYear (d : DateTime) : Nat :=
  cumDaysBefore d.month + (d.day - 1) + (if 2 < d.month && isLeap d.year then 1 else 0)

/-- Days since 0000-03-01 (proleptic Gregorian; Hinnant's civil-days
algorithm shifted to stay in `Nat`).  Only used modulo 7. -/
def civilDays (d : DateTime) : Nat :=
  let y := if d.month ≤ 2 then d.year - 1 else d.year
  let era := y / 400
  let yoe := y % 400
  let mp := if 2 < d.month then d.month - 3 else d.month + 9
  let doy := (153 * mp + 2) / 5 + (d.day - 1)
  era * 146097 + yoe * 365 + yoe / 4 - yoe / 100 + doy

/-- Day of the week, 0 = Sunday (`tm_wday`); 0000-03-01 is a Wednesday. -/
def weekday (d : DateTime) : Nat :=
  (civilDays d + 3) % 7

/-- `%W`: week number of the year, Monday as first day of the week;
days before the first Monday are week 0 (glibc semantics). -/
def weekOfYear (d : DateTime) : Nat :=
  (dayOfYear d + 7 - (weekday d + 6) % 7) / 7

/-- `dt.strftime("%Y-%W")`. -/
def fmtYW (d : DateTime) : String :=
  pad4 d.year ++ "-" ++ pad2 (weekOfYear d)

/-! ## The classifier

Embedding of `grandfatherson` (`backup.py`, lines 55-122).  The
imperative parts become:

* the mutated `keep_flags` list → an explicit `List Bool` threaded
  through `List.set` calls (`keep_flags[i] = True` is `set i true`;
  `keep_flags[-1] = True` on the non-empty list is `set (length-1) true`);
* the `for i in range(len(labels) - 1)` loop with `break` → the fuel
  recursion `scanAux`, fuel starting at `labels.length - 1`;
* the `IndexError` that `keep_flags[0] = True` raises on an empty
  input → the `none` result of `grandfatherson`.
-/

/-- The quota keyword arguments of `grandfatherson` (Python ints). -/
structure Quotas where
  tenminutely : Int := 0
  hourly : Int := 0
  daily : Int := 0
  weekly : Int := 0
  monthly : Int := 0
deriving DecidableEq, Repr

/-- The five granularities, in the order `timelines` lists them. -/
inductive Gran
  | tenminutely | hourly | daily | weekly | monthly
deriving DecidableEq, Repr

/-- The quota of one granularity. -/
def Quotas.get (q : Quotas) : Gran → Int
  | .tenminutely => q.tenminutely
  | .hourly => q.hourly
  | .daily => q.daily
  | .weekly => q.weekly
  | .monthly => q.monthly

/-- Replace the quota of one granularity, holding the others fixed. -/
def Quotas.setGran (q : Quotas) : Gran → Int → Quotas
  | .tenminutely, v => { q with tenminutely := v }
  | .hourly, v => { q with hourly := v }
  | .daily, v => { q with daily := v }
  | .weekly, v => { q with weekly := v }
  | .monthly, v => { q with monthly := v }

/-- The format function of a granularity (its `fmt` in `timelines`). -/
def Gran.fmt : Gran → DateTime → String
  | .tenminutely => fmtYmdHM
  | .hourly => fmtYmdH
  | .daily => fmtYmd
  | .weekly => fmtYW
  | .monthly => fmtYm

/-- The `drop` entry of a granularity in `timelines`. -/
def Gran.drop : Gran → Nat
  | .tenminutely => 1
  | _ => 0

/-- The bucket labels a granularity's rule computes for the sorted
list: `labels = [dt.strftime(fmt) for dt in dts]`, then
`labels = [label[:-drop] for label in labels]` when `drop > 0`. -/
def ruleLabels (g : Gran) (dts : List DateTime) : List String :=
  let labels := dts.map g.fmt
  if 0 < g.drop then labels.map (fun label => label.dropRight g.drop) else labels

/-- The scan loop of one rule (`backup.py` lines 105-110):

```
for i in range(len(labels) - 1):
    if labels[i] != labels[i + 1]:
        keep_flags[i] = True
        have += 1
        if have > need or need < 0:
            break
```

`fuel` counts the loop iterations still to run; at the top-level call
it is `labels.length - 1`, so `i` and `i + 1` stay in range and
`getD _ ""` never takes its default. -/
def scanAux (labels : List String) (need : Int) :
    Nat → Nat → Int → List Bool → List Bool × Int
  | _, 0, hv, flags => (flags, hv)
  | i, fuel + 1, hv, flags =>
    if labels.getD i "" ≠ labels.getD (i + 1) "" then
      let flags := flags.set i true
      let hv := hv + 1
      if need < hv ∨ need < 0 then (flags, hv)
      else scanAux labels need (i + 1) fuel hv flags
    else scanAux labels need (i + 1) fuel hv flags

/-- One iteration of the `for fmt, need, drop in timelines` loop:
skip if `need == 0`, otherwise scan for bucket boundaries and then
force-keep the oldest entry when too few buckets were found
(`backup.py` lines 97-113). -/
def applyRule (dts : List DateTime) (g : Gran) (need : Int)
    (flags : List Bool) : List Bool :=
  if need = 0 then flags
  else
    let labels := ruleLabels g dts
    let res := scanAux labels need 0 (labels.length - 1) 0 flags
    if 0 < need ∧ res.2 < need then res.1.set (res.1.length - 1) true
    else res.1

/-- Result assembly (`backup.py` lines 115-121): split the sorted list
by its keep flag, preserving order. -/
def splitKeep : List Bool → List DateTime → List DateTime × List DateTime
  | k :: ks, d :: ds =>
    let rest := splitKeep ks ds
    if k then (d :: rest.1, rest.2) else (rest.1, d :: rest.2)
  | _, _ => ([], [])

/-- The fixed order in which the five rules run. -/
def granOrder : List Gran :=
  [.tenminutely, .hourly, .daily, .weekly, .monthly]

/-- The `for fmt, need, drop in timelines` loop over the five rules. -/
def runRules (sorted : List DateTime) (q : Quotas) (flags : List Bool) : List Bool :=
  granOrder.foldl (fun fl g => applyRule sorted g (q.get g) fl) flags

/-- `grandfatherson(dts, tenminutely=..., ..., monthly=...)`.

Returns `none` exactly when the Python function raises: on an empty
input, `keep_flags[0] = True` raises `IndexError`. -/
def grandfatherson (dts : List DateTime) (q : Quotas) :
    Option (List DateTime × List DateTime) :=
  let sorted := sortDesc dts
  match sorted with
  | [] => none
  | _ :: _ =>
    let flags0 := (List.replicate sorted.length false).set 0 true
    some (splitKeep (runRules sorted q flags0) sorted)

/-! ## Scan analysis

`scanAux` threads the flag list through the loop, but its control flow
(which indices get marked, and the final `have` counter) depends only
on `labels` and `need`.  `scanMarks` records the marked indices and
`bIdx` all boundary indices; `scanAux_eq` relates them. -/

/-- Set every index of `js` (left to right) to `true`. -/
def setAll (js : List Nat) (flags : List Bool) : List Bool :=
  js.foldl (fun fl j => fl.set j true) flags

/-- The bucket-boundary indices from `i` on with `fuel` iterations
left: the `i` with `labels[i] != labels[i+1]`. -/
def bIdx (labels : List String) : Nat → Nat → List Nat
  | _, 0 => []
  | i, fuel + 1 =>
    if labels.getD i "" ≠ labels.getD (i + 1) "" then i :: bIdx labels (i + 1) fuel
    else bIdx labels (i + 1) fuel

/-- The indices the scan marks: the control flow of `scanAux` with the
flag list stripped out. -/
def scanMarks (labels : List String) (need : Int) : Nat → Nat → Int → List Nat
  | _, 0, _ => []
  | i, fuel + 1, hv =>
    if labels.getD i "" ≠ labels.getD (i + 1) "" then
      if need < hv + 1 ∨ need < 0 then [i]
      else i :: scanMarks labels need (i + 1) fuel (hv + 1)
    else scanMarks labels need (i + 1) fuel hv

theorem setAll_cons (j : Nat) (js : List Nat) (flags : List Bool) :
    setAll (j :: js) flags = setAll js (flags.set j true) := rfl

theorem setAll_length (js : List Nat) : ∀ flags : List Bool,
    (setAll js flags).length = flags.length := by
  induction js with
  | nil => intro flags; rfl
  | cons j js ih => intro flags; rw [setAll_cons, ih, List.length_set]

theorem getD_set_true (flags : List Bool) (j k : Nat) :
    ((flags.set j true).getD k false = true) ↔
      ((j = k ∧ j < flags.length) ∨ flags.getD k false = true) := by
  induction flags generalizing j k with
  | nil => simp
  | cons f fs ih =>
    cases j with
    | zero => cases k <;> simp
    | succ j =>
      cases k with
      | zero => simp
      | succ k => simpa [Nat.succ_lt_succ_iff] using ih j k

theorem getD_setAll (js : List Nat) : ∀ (flags : List Bool) (k : Nat),
    ((setAll js flags).getD k false = true) ↔
      ((k ∈ js ∧ k < flags.length) ∨ flags.getD k false = true) := by
  induction js with
  | nil => simp [setAll]
  | cons j js ih =>
    intro flags k
    rw [setAll_cons, ih, List.length_set, getD_set_true]
    constructor
    · rintro (⟨hm, hl⟩ | ⟨rfl, hl⟩ | hd)
      · exact Or.inl ⟨List.mem_cons_of_mem j hm, hl⟩
      · exact Or.inl ⟨List.mem_cons_self j js, hl⟩
      · exact Or.inr hd
    · rintro (⟨hm, hl⟩ | hd)
      · rcases List.mem_cons.mp hm with rfl | hm
        · exact Or.inr (Or.inl ⟨rfl, hl⟩)
        · exact Or.inl ⟨hm, hl⟩
      · exact Or.inr (Or.inr hd)

theorem scanAux_eq (labels : List String) (need : Int) :
    ∀ (fuel i : Nat) (hv : Int) (flags : List Bool),
      scanAux labels need i fuel hv flags =
        (setAll (scanMarks labels need i fuel hv) flags,
         hv + (scanMarks labels need i fuel hv).length) := by
  intro fuel
  induction fuel with
  | zero => intro i hv flags; simp [scanAux, scanMarks, setAll]
  | succ fuel ih =>
    intro i hv flags
    rw [scanAux, scanMarks]
    by_cases hb : labels.getD i "" ≠ labels.getD (i + 1) ""
    · rw [if_pos hb, if_pos hb]
      by_cases hc : need < hv + 1 ∨ need < 0
      · rw [if_pos hc, if_pos hc]
        simp [setAll]
      · rw [if_neg hc, if_neg hc, ih]
        simp only [setAll_cons, List.length_cons]
        refine congrArg _ ?_
        push_cast
        ring
    · rw [if_neg hb, if_neg hb, ih]

theorem scanMarks_boundary (labels : List String) (need : Int) :
    ∀ (fuel i : Nat) (hv : Int) (k : Nat), k ∈ scanMarks labels need i fuel hv →
      labels.getD k "" ≠ labels.getD (k + 1) "" := by
  intro fuel
  induction fuel with
  | zero => intro i hv k h; simp [scanMarks] at h
  | succ fuel ih =>
    intro i hv k h
    rw [scanMarks] at h
    by_cases hb : labels.getD i "" ≠ labels.getD (i + 1) ""
    · rw [if_pos hb] at h
      by_cases hc : need < hv + 1 ∨ need < 0
      · rw [if_pos hc] at h
        obtain rfl : k = i := by simpa using h
        exact hb
      · rw [if_neg hc] at h
        rcases List.mem_cons.mp h with rfl | h
        · exact hb
        · exact ih (i + 1) (hv + 1) k h
    · rw [if_neg hb] at h
      exact ih (i + 1) hv k h

theorem scanMarks_sublist (labels : List String) (need : Int) :
    ∀ (fuel i : Nat) (hv : Int),
      (scanMarks labels need i fuel hv).Sublist (bIdx labels i fuel) := by
  intro fuel
  induction fuel with
  | zero => intro i hv; simp [scanMarks, bIdx]
  | succ fuel ih =>
    intro i hv
    rw [scanMarks, bIdx]
    by_cases hb : labels.getD i "" ≠ labels.getD (i + 1) ""
    · rw [if_pos hb, if_pos hb]
      by_cases hc : need < hv + 1 ∨ need < 0
      · rw [if_pos hc]
        exact (List.nil_sublist _).cons₂ i
      · rw [if_neg hc]
        exact (ih (i + 1) (hv + 1)).cons₂ i
    · rw [if_neg hb, if_neg hb]
      exact ih (i + 1) hv

theorem scanMarks_neg (labels : List String) (need : Int) (hneed : need < 0) :
    ∀ (fuel i : Nat) (hv : Int),
      scanMarks labels need i fuel hv = (bIdx labels i fuel).take 1 := by
  intro fuel
  induction fuel with
  | zero => intro i hv; simp [scanMarks, bIdx]
  | succ fuel ih =>
    intro i hv
    rw [scanMarks, bIdx]
    by_cases hb : labels.getD i "" ≠ labels.getD (i + 1) ""
    · rw [if_pos hb, if_pos hb, if_pos (Or.inr hneed)]
      rfl
    · rw [if_neg hb, if_neg hb]
      exact ih (i + 1) hv

theorem scanMarks_mono (labels : List String) {need need' : Int}
    (hpos : 0 < need) (hle : need ≤ need') :
    ∀ (fuel i : Nat) (hv : Int),
      (scanMarks labels need i fuel hv).Sublist (scanMarks labels need' i fuel hv) := by
  intro fuel
  induction fuel with
  | zero => intro i hv; simp [scanMarks]
  | succ fuel ih =>
    intro i hv
    rw [scanMarks, scanMarks]
    by_cases hb : labels.getD i "" ≠ labels.getD (i + 1) ""
    · rw [if_pos hb, if_pos hb]
      by_cases hc : need < hv + 1 ∨ need < 0
      · rw [if_pos hc]
        by_cases hc2 : need' < hv + 1 ∨ need' < 0
        · rw [if_pos hc2]
        · rw [if_neg hc2]
          exact (List.nil_sublist _).cons₂ i
      · rw [if_neg hc, if_neg (by omega : ¬(need' < hv + 1 ∨ need' < 0))]
        exact (ih (i + 1) (hv + 1)).cons₂ i
    · rw [if_neg hb, if_neg hb]
      exact ih (i + 1) hv

theorem bIdx_take_one_sublist (labels : List String) (need : Int) :
    ∀ (fuel i : Nat) (hv : Int),
      ((bIdx labels i fuel).take 1).Sublist (scanMarks labels need i fuel hv) := by
  intro fuel
  induction fuel with
  | zero => intro i hv; simp [scanMarks, bIdx]
  | succ fuel ih =>
    intro i hv
    rw [scanMarks, bIdx]
    by_cases hb : labels.getD i "" ≠ labels.getD (i + 1) ""
    · rw [if_pos hb, if_pos hb]
      by_cases hc : need < hv + 1 ∨ need < 0
      · rw [if_pos hc]; simp
      · rw [if_neg hc]
        simp
    · rw [if_neg hb, if_neg hb]
      exact ih (i + 1) hv

theorem scanMarks_eq_bIdx_of_short (labels : List String) (need : Int)
    (hpos : 0 < need) :
    ∀ (fuel i : Nat) (hv : Int),
      hv + ((scanMarks labels need i fuel hv).length : Int) < need →
      scanMarks labels need i fuel hv = bIdx labels i fuel := by
  intro fuel
  induction fuel with
  | zero => intro i hv _; simp [scanMarks, bIdx]
  | succ fuel ih =>
    intro i hv hshort
    rw [scanMarks] at hshort ⊢
    rw [bIdx]
    by_cases hb : labels.getD i "" ≠ labels.getD (i + 1) ""
    · rw [if_pos hb] at hshort ⊢
      rw [if_pos hb]
      by_cases hc : need < hv + 1 ∨ need < 0
      · rw [if_pos hc] at hshort
        simp at hshort
        omega
      · rw [if_neg hc] at hshort ⊢
        rw [ih (i + 1) (hv + 1) (by simp at hshort ⊢; omega)]
    · rw [if_neg hb] at hshort ⊢
      rw [if_neg hb]
      exact ih (i + 1) hv hshort

/-! ## Per-rule characterisation -/

/-- The indices one rule's scan marks (`hv` starts at 0, fuel at
`len(labels) - 1`). -/
def ruleMarks (dts : List DateTime) (g : Gran) (need : Int) : List Nat :=
  scanMarks (ruleLabels g dts) need 0 ((ruleLabels g dts).length - 1) 0

/-- The final value of the rule's `have` counter. -/
def ruleHave (dts : List DateTime) (g : Gran) (need : Int) : Int :=
  (ruleMarks dts g need).length

theorem applyRule_length (dts : List DateTime) (g : Gran) (need : Int)
    (flags : List Bool) : (applyRule dts g need flags).length = flags.length := by
  simp only [applyRule]
  by_cases h0 : need = 0
  · rw [if_pos h0]
  · rw [if_neg h0, scanAux_eq]
    by_cases ht : 0 < need ∧
        (scanAux (ruleLabels g dts) need 0 ((ruleLabels g dts).length - 1) 0 flags).2 < need
    · rw [if_pos (by rwa [scanAux_eq] at ht)]
      simp [setAll_length]
    · rw [if_neg (by rwa [scanAux_eq] at ht)]
      simp [setAll_length]

/-- What one rule does to one flag: it stays `true` if it was `true`,
becomes `true` if the scan marks it, and becomes `true` at the last
position when the scan found fewer buckets than a positive quota. -/
theorem applyRule_getD (dts : List DateTime) (g : Gran) (need : Int)
    (flags : List Bool) (k : Nat) :
    ((applyRule dts g need flags).getD k false = true) ↔
      (flags.getD k false = true ∨
        (need ≠ 0 ∧ k ∈ ruleMarks dts g need ∧ k < flags.length) ∨
        (0 < need ∧ (ruleHave dts g need) < need ∧
          0 < flags.length ∧ k = flags.length - 1)) := by
  simp only [applyRule]
  by_cases h0 : need = 0
  · rw [if_pos h0]
    subst h0
    simp
  · rw [if_neg h0, scanAux_eq]
    simp only
    rw [show (0 : Int) + ((scanMarks (ruleLabels g dts) need 0
        ((ruleLabels g dts).length - 1) 0).length : Int) =
      ruleHave dts g need by simp [ruleHave, ruleMarks]]
    by_cases ht : 0 < need ∧ ruleHave dts g need < need
    · rw [if_pos ht]
      rw [getD_set_true, getD_setAll, setAll_length]
      unfold ruleMarks
      constructor
      · rintro (⟨he, hl⟩ | ⟨hm, hl⟩ | hd)
        · refine Or.inr (Or.inr ⟨ht.1, ht.2, ?_, ?_⟩) <;> omega
        · exact Or.inr (Or.inl ⟨h0, hm, hl⟩)
        · exact Or.inl hd
      · rintro (hd | ⟨_, hm, hl⟩ | ⟨_, _, hpos, rfl⟩)
        · exact Or.inr (Or.inr hd)
        · exact Or.inr (Or.inl ⟨hm, hl⟩)
        · exact Or.inl ⟨rfl, by omega⟩
    · rw [if_neg ht, getD_setAll]
      unfold ruleMarks
      constructor
      · rintro (⟨hm, hl⟩ | hd)
        · exact Or.inr (Or.inl ⟨h0, hm, hl⟩)
        · exact Or.inl hd
      · rintro (hd | ⟨_, hm, hl⟩ | ⟨hpos, hlt, _, _⟩)
        · exact Or.inr hd
        · exact Or.inl ⟨hm, hl⟩
        · exact absurd ⟨hpos, hlt⟩ ht

/-! ## Pointwise order on flag lists -/

/-- `f` is pointwise below `g`: same length and every flag set in `f`
is set in `g`. -/
def FlagsLE (f g : List Bool) : Prop :=
  f.length = g.length ∧ ∀ k, f.getD k false = true → g.getD k false = true

theorem flagsLE_refl (f : List Bool) : FlagsLE f f := ⟨rfl, fun _ h => h⟩

theorem flagsLE_trans {f g h : List Bool} (h1 : FlagsLE f g) (h2 : FlagsLE g h) :
    FlagsLE f h :=
  ⟨h1.1.trans h2.1, fun k hk => h2.2 k (h1.2 k hk)⟩

/-- One rule is monotone: in the flag list it transforms, and in its
quota, as long as the quota does not move from negative to zero. -/
theorem applyRule_mono (dts : List DateTime) (g : Gran) {need need' : Int}
    {f f' : List Bool} (hle : need ≤ need') (hnz : ¬(need < 0 ∧ need' = 0))
    (hf : FlagsLE f f') :
    FlagsLE (applyRule dts g need f) (applyRule dts g need' f') := by
  have hlen12 : f.length = f'.length := hf.1
  refine ⟨by rw [applyRule_length, applyRule_length, hf.1], fun k hk => ?_⟩
  rw [applyRule_getD] at hk ⊢
  rcases hk with hd | ⟨hne, hm, hl⟩ | ⟨hpos, hshort, hlen, hk⟩
  · exact Or.inl (hf.2 k hd)
  · rcases lt_trichotomy need 0 with hneg | rfl | hpos
    · rcases lt_trichotomy need' 0 with hneg' | h0' | hpos'
      · refine Or.inr (Or.inl ⟨by omega, ?_, by omega⟩)
        rw [ruleMarks, scanMarks_neg _ _ hneg']
        rw [ruleMarks, scanMarks_neg _ _ hneg] at hm
        exact hm
      · exact absurd ⟨hneg, h0'⟩ hnz
      · refine Or.inr (Or.inl ⟨by omega, ?_, by omega⟩)
        rw [ruleMarks, scanMarks_neg _ _ hneg] at hm
        exact (bIdx_take_one_sublist _ need' _ _ _).mem hm
    · exact absurd rfl hne
    · refine Or.inr (Or.inl ⟨by omega, ?_, by omega⟩)
      exact (scanMarks_mono _ hpos hle _ _ _).mem hm
  · have hpos' : 0 < need' := by omega
    refine Or.inr (Or.inr ⟨hpos', ?_, by omega, by omega⟩)
    have hfull : ruleMarks dts g need = bIdx (ruleLabels g dts) 0
        ((ruleLabels g dts).length - 1) := by
      refine scanMarks_eq_bIdx_of_short _ _ hpos _ _ _ ?_
      have : (0 : Int) + ((scanMarks (ruleLabels g dts) need 0
          ((ruleLabels g dts).length - 1) 0).length : Int) < need := by
        simpa [ruleHave, ruleMarks] using hshort
      simpa using this
    have hsub := scanMarks_sublist (ruleLabels g dts) need'
      ((ruleLabels g dts).length - 1) 0 0
    have hle2 : (ruleHave dts g need' : Int) ≤ (ruleHave dts g need : Int) := by
      have := hsub.length_le
      rw [← ruleMarks] at this
      rw [ruleHave, ruleHave, hfull]
      exact_mod_cast this
    omega

/-- One rule never clears a flag. -/
theorem applyRule_extends (dts : List DateTime) (g : Gran) (need : Int)
    (flags : List Bool) : FlagsLE flags (applyRule dts g need flags) :=
  ⟨(applyRule_length dts g need flags).symm,
   fun k hk => (applyRule_getD dts g need flags k).mpr (Or.inl hk)⟩

theorem runRules_length (sorted : List DateTime) (q : Quotas) (flags : List Bool) :
    (runRules sorted q flags).length = flags.length := by
  simp [runRules, granOrder, applyRule_length]

/-- The five-rule pipeline never clears a flag. -/
theorem runRules_extends (sorted : List DateTime) (q : Quotas) (flags : List Bool) :
    FlagsLE flags (runRules sorted q flags) := by
  simp only [runRules, granOrder, List.foldl]
  exact flagsLE_trans (applyRule_extends _ _ _ _) (flagsLE_trans (applyRule_extends _ _ _ _)
    (flagsLE_trans (applyRule_extends _ _ _ _) (flagsLE_trans (applyRule_extends _ _ _ _)
      (applyRule_extends _ _ _ _))))

/-- The five-rule pipeline is monotone in all five quotas at once,
as long as no quota moves from negative to zero. -/
theorem runRules_mono (sorted : List DateTime) {q q' : Quotas} {f f' : List Bool}
    (hq : ∀ g : Gran, q.get g ≤ q'.get g ∧ ¬(q.get g < 0 ∧ q'.get g = 0))
    (hf : FlagsLE f f') : FlagsLE (runRules sorted q f) (runRules sorted q' f') := by
  simp only [runRules, granOrder, List.foldl]
  exact applyRule_mono _ _ (hq _).1 (hq _).2 (applyRule_mono _ _ (hq _).1 (hq _).2
    (applyRule_mono _ _ (hq _).1 (hq _).2 (applyRule_mono _ _ (hq _).1 (hq _).2
      (applyRule_mono _ _ (hq _).1 (hq _).2 hf))))

/-! ## Result assembly -/

theorem splitKeep_perm : ∀ (flags : List Bool) (ds : List DateTime),
    flags.length = ds.length →
    List.Perm ((splitKeep flags ds).1 ++ (splitKeep flags ds).2) ds := by
  intro flags
  induction flags with
  | nil =>
    intro ds h
    cases ds with
    | nil => simp [splitKeep]
    | cons d ds => simp at h
  | cons k ks ih =>
    intro ds h
    cases ds with
    | nil => simp at h
    | cons d ds =>
      have hperm := ih ds (by simpa using h)
      cases k with
      | true => simpa [splitKeep] using hperm.cons d
      | false =>
        simp only [splitKeep]
        exact List.perm_middle.trans (hperm.cons d)

theorem splitKeep_keep_sublist : ∀ (flags : List Bool) (ds : List DateTime),
    ((splitKeep flags ds).1).Sublist ds := by
  intro flags
  induction flags with
  | nil => intro ds; cases ds <;> simp [splitKeep]
  | cons k ks ih =>
    intro ds
    cases ds with
    | nil => simp [splitKeep]
    | cons d ds =>
      cases k with
      | true => simpa [splitKeep] using (ih ds).cons₂ d
      | false => simpa [splitKeep] using (ih ds).cons d

theorem splitKeep_prune_sublist : ∀ (flags : List Bool) (ds : List DateTime),
    ((splitKeep flags ds).2).Sublist ds := by
  intro flags
  induction flags with
  | nil => intro ds; cases ds <;> simp [splitKeep]
  | cons k ks ih =>
    intro ds
    cases ds with
    | nil => simp [splitKeep]
    | cons d ds =>
      cases k with
      | true => simpa [splitKeep] using (ih ds).cons d
      | false => simpa [splitKeep] using (ih ds).cons₂ d

theorem splitKeep_mem_keep : ∀ (flags : List Bool) (ds : List DateTime) (k : Nat)
    (dflt : DateTime), k < ds.length → flags.getD k false = true →
    ds.getD k dflt ∈ (splitKeep flags ds).1 := by
  intro flags
  induction flags with
  | nil => intro ds k dflt hk hflag; simp at hflag
  | cons fl fls ih =>
    intro ds k dflt hk hflag
    cases ds with
    | nil => simp at hk
    | cons d ds =>
      cases k with
      | zero =>
        simp only [List.getD_cons_zero] at hflag ⊢
        subst hflag
        simp [splitKeep]
      | succ k =>
        simp only [List.getD_cons_succ] at hflag ⊢
        have hmem := ih ds k dflt (by simpa using hk) hflag
        cases fl with
        | true => exact List.mem_cons_of_mem d hmem
        | false => exact hmem

/-- A pointwise-larger flag list keeps a superlist. -/
theorem splitKeep_keep_mono : ∀ {flags flags' : List Bool} (ds : List DateTime),
    FlagsLE flags flags' →
    ((splitKeep flags ds).1).Sublist ((splitKeep flags' ds).1) := by
  intro flags
  induction flags with
  | nil =>
    intro flags' ds h
    obtain rfl : flags' = [] := by
      have := h.1; cases flags' <;> simp_all
    exact List.Sublist.refl _
  | cons fl fls ih =>
    intro flags' ds h
    cases flags' with
    | nil => exact absurd h.1 (by simp)
    | cons fl' fls' =>
      have htail : FlagsLE fls fls' := by
        refine ⟨by simpa using h.1, fun k hk => ?_⟩
        have := h.2 (k + 1)
        simpa using this (by simpa using hk)
      have hhead : fl = true → fl' = true := by
        intro hfl
        have := h.2 0
        simpa [hfl] using this
      cases ds with
      | nil => simp [splitKeep]
      | cons d ds =>
        cases fl with
        | true =>
          rw [hhead rfl]
          simpa [splitKeep] using (ih ds htail).cons₂ d
        | false =>
          cases fl' with
          | true =>
            simpa [splitKeep] using (ih ds htail).cons d
          | false =>
            simpa [splitKeep] using ih ds htail

/-! ## Classifier-level facts -/

theorem sortDesc_ne_nil {dts : List DateTime} (h : dts ≠ []) : sortDesc dts ≠ [] := by
  intro hnil
  apply h
  have hlen := (sortDesc_perm dts).length_eq
  rw [hnil] at hlen
  exact List.length_eq_zero.mp hlen.symm

/-- The initial flag list of `grandfatherson`. -/
def initFlags (n : Nat) : List Bool :=
  (List.replicate n false).set 0 true

theorem initFlags_length (n : Nat) : (initFlags n).length = n := by
  simp [initFlags]

theorem initFlags_getD (n k : Nat) :
    ((initFlags n).getD k false = true) ↔ (k = 0 ∧ 0 < n) := by
  unfold initFlags
  rw [getD_set_true]
  simp only [List.length_replicate]
  have hrep : ∀ (m j : Nat), (List.replicate m (false : Bool)).getD j false = false := by
    intro m
    induction m with
    | zero => intro j; simp
    | succ m ih => intro j; cases j <;> simp [List.replicate, ih]
  constructor
  · rintro (⟨rfl, h⟩ | hd)
    · exact ⟨rfl, h⟩
    · exact absurd hd (by simp [hrep])
  · rintro ⟨rfl, h⟩
    exact Or.inl ⟨rfl, h⟩

/-- On a non-empty input, `grandfatherson` returns the split of the
sorted input by the flags the five rules produce. -/
theorem grandfatherson_spec (dts : List DateTime) (q : Quotas) (h : dts ≠ []) :
    grandfatherson dts q =
      some (splitKeep (runRules (sortDesc dts) q (initFlags (sortDesc dts).length))
        (sortDesc dts)) := by
  unfold grandfatherson
  cases hs : sortDesc dts with
  | nil => exact absurd hs (sortDesc_ne_nil h)
  | cons a as => simp [initFlags]

theorem sorted_head_max {l : List DateTime} {a : DateTime} {as : List DateTime}
    (hs : l.Sorted dge) (heq : l = a :: as) : ∀ d ∈ l, d ≤ a := by
  subst heq
  intro d hd
  rcases List.mem_cons.mp hd with rfl | hd
  · exact le_refl d
  · exact List.rel_of_sorted_cons hs d hd

theorem sorted_getLast_le {l : List DateTime} (hs : l.Sorted dge) (hne : l ≠ []) :
    ∀ d ∈ l, l.getLast hne ≤ d := by
  induction l with
  | nil => exact absurd rfl hne
  | cons a as ih =>
    intro d hd
    by_cases has : as = []
    · subst has
      obtain rfl : d = a := by simpa using hd
      simp
    · rw [List.getLast_cons has]
      rcases List.mem_cons.mp hd with rfl | hd
      · exact List.rel_of_sorted_cons hs _ (List.getLast_mem has)
      · exact ih hs.of_cons has d hd

/-! ## The repository's test suite, replayed against the embedding

Each of the nine tests in `test_backup.py` (and the one embedded in
`backup.py`) holds of the embedding by computation, evidence that the
embedding is faithful — including the `%W` week-number labels. -/

/-- The four-distinct-days input of `test_grandfatherson_none` and
`test_grandfatherson_daily1`. -/
def dtsNone : List DateTime :=
  [⟨2022, 5, 5, 0, 0, 0⟩, ⟨2022, 5, 4, 0, 0, 0⟩, ⟨2022, 5, 2, 0, 0, 0⟩, ⟨2022, 5, 1, 0, 0, 0⟩]

theorem test_grandfatherson_none :
    grandfatherson dtsNone {} = some (dtsNone.take 1, dtsNone.drop 1) := by decide

/-- The seven-timestamp input of `test_grandfatherson_tenminutely`. -/
def dtsTenmin : List DateTime :=
  [⟨2022, 5, 5, 17, 30, 0⟩, ⟨2022, 5, 5, 17, 25, 0⟩, ⟨2022, 5, 5, 17, 20, 0⟩,
   ⟨2022, 5, 5, 16, 55, 0⟩, ⟨2022, 5, 5, 16, 50, 0⟩, ⟨2022, 5, 5, 16, 40, 0⟩,
   ⟨2022, 5, 5, 16, 30, 0⟩]

theorem test_grandfatherson_tenminutely :
    grandfatherson dtsTenmin { tenminutely := 3 } =
      some ([⟨2022, 5, 5, 17, 30, 0⟩, ⟨2022, 5, 5, 17, 20, 0⟩, ⟨2022, 5, 5, 16, 50, 0⟩,
             ⟨2022, 5, 5, 16, 40, 0⟩],
            [⟨2022, 5, 5, 17, 25, 0⟩, ⟨2022, 5, 5, 16, 55, 0⟩, ⟨2022, 5, 5, 16, 30, 0⟩]) := by
  decide

theorem test_grandfatherson_hourly :
    grandfatherson [⟨2022, 5, 8, 0, 0, 0⟩, ⟨2022, 5, 5, 17, 0, 0⟩, ⟨2022, 5, 5, 16, 30, 0⟩,
        ⟨2022, 5, 5, 16, 0, 0⟩, ⟨2022, 5, 5, 15, 0, 0⟩] { hourly := 3 } =
      some ([⟨2022, 5, 8, 0, 0, 0⟩, ⟨2022, 5, 5, 17, 0, 0⟩, ⟨2022, 5, 5, 16, 0, 0⟩],
            [⟨2022, 5, 5, 16, 30, 0⟩, ⟨2022, 5, 5, 15, 0, 0⟩]) := by decide

theorem test_grandfatherson_daily1 :
    grandfatherson dtsNone { daily := 3 } = some (dtsNone.take 3, dtsNone.drop 3) := by decide

theorem test_grandfatherson_daily2 :
    grandfatherson [⟨2022, 5, 5, 10, 0, 0⟩, ⟨2022, 5, 4, 10, 0, 0⟩, ⟨2022, 5, 4, 9, 0, 0⟩,
        ⟨2022, 5, 2, 10, 0, 0⟩, ⟨2022, 5, 1, 10, 0, 0⟩] { daily := 3 } =
      some ([⟨2022, 5, 5, 10, 0, 0⟩, ⟨2022, 5, 4, 9, 0, 0⟩, ⟨2022, 5, 2, 10, 0, 0⟩],
            [⟨2022, 5, 4, 10, 0, 0⟩, ⟨2022, 5, 1, 10, 0, 0⟩]) := by decide

theorem test_grandfatherson_daily_too_few :
    grandfatherson [⟨2022, 5, 5, 0, 0, 0⟩, ⟨2022, 5, 4, 0, 0, 0⟩] { daily := 3 } =
      some ([⟨2022, 5, 5, 0, 0, 0⟩, ⟨2022, 5, 4, 0, 0, 0⟩], []) := by decide

theorem test_grandfatherson_daily_too_few_oldest1 :
    grandfatherson [⟨2022, 5, 5, 10, 0, 0⟩, ⟨2022, 5, 4, 10, 0, 0⟩, ⟨2022, 5, 4, 9, 0, 0⟩]
        { daily := 3 } =
      some ([⟨2022, 5, 5, 10, 0, 0⟩, ⟨2022, 5, 4, 9, 0, 0⟩], [⟨2022, 5, 4, 10, 0, 0⟩]) := by
  decide

theorem test_grandfatherson_daily_too_few_oldest2 :
    grandfatherson [⟨2022, 5, 5, 10, 0, 0⟩, ⟨2022, 5, 5, 8, 0, 0⟩] { daily := 3 } =
      some ([⟨2022, 5, 5, 10, 0, 0⟩, ⟨2022, 5, 5, 8, 0, 0⟩], []) := by decide

/-- The nine-timestamp input of `test_grandfatherson_monthly`,
spanning February through May 2022. -/
def dtsMonthly : List DateTime :=
  [⟨2022, 5, 5, 0, 0, 0⟩, ⟨2022, 5, 4, 0, 0, 0⟩, ⟨2022, 5, 2, 0, 0, 0⟩, ⟨2022, 5, 1, 0, 0, 0⟩,
   ⟨2022, 4, 20, 0, 0, 0⟩, ⟨2022, 4, 10, 0, 0, 0⟩, ⟨2022, 3, 8, 0, 0, 0⟩, ⟨2022, 3, 7, 0, 0, 0⟩,
   ⟨2022, 2, 8, 0, 0, 0⟩]

theorem test_grandfatherson_monthly :
    grandfatherson dtsMonthly { monthly := 3 } =
      some ([⟨2022, 5, 5, 0, 0, 0⟩, ⟨2022, 5, 1, 0, 0, 0⟩, ⟨2022, 4, 10, 0, 0, 0⟩,
             ⟨2022, 3, 7, 0, 0, 0⟩],
            [⟨2022, 5, 4, 0, 0, 0⟩, ⟨2022, 5, 2, 0, 0, 0⟩, ⟨2022, 4, 20, 0, 0, 0⟩,
             ⟨2022, 3, 8, 0, 0, 0⟩, ⟨2022, 2, 8, 0, 0, 0⟩]) := by decide

theorem test_grandfatherson_weekly :
    grandfatherson [⟨2022, 6, 13, 0, 0, 0⟩, ⟨2022, 6, 12, 0, 0, 0⟩, ⟨2022, 6, 11, 0, 0, 0⟩,
        ⟨2022, 6, 7, 0, 0, 0⟩, ⟨2022, 6, 6, 0, 0, 0⟩, ⟨2022, 6, 5, 0, 0, 0⟩,
        ⟨2022, 5, 29, 0, 0, 0⟩, ⟨2022, 5, 30, 0, 0, 0⟩] { weekly := 3 } =
      some ([⟨2022, 6, 13, 0, 0, 0⟩, ⟨2022, 6, 6, 0, 0, 0⟩, ⟨2022, 5, 30, 0, 0, 0⟩],
            [⟨2022, 6, 12, 0, 0, 0⟩, ⟨2022, 6, 11, 0, 0, 0⟩, ⟨2022, 6, 7, 0, 0, 0⟩,
             ⟨2022, 6, 5, 0, 0, 0⟩, ⟨2022, 5, 29, 0, 0, 0⟩]) := by decide

/-! ## `label[:-1]`: dropping the final character

Python's `label[:-drop]` is `String.dropRight drop`; these lemmas give
its list-of-characters semantics, needed to reason about the
ten-minutely label truncation. -/

theorem substring_dropRight_eq (ss : Substring) (n : Nat) :
    ss.dropRight n = ⟨ss.str, ss.startPos, ss.startPos + ss.prevn n ⟨ss.bsize⟩⟩ := by
  cases ss; rfl

theorem dropRight_data (s : String) (n : Nat) :
    (s.dropRight n).data = (s.data.reverse.drop n).reverse := by
  have v : Substring.ValidFor [] s.data [] s.toSubstring := s.validFor_toSubstring
  have v' : Substring.ValidFor [] (s.data.reverse.reverse ++ []) [] s.toSubstring := by
    simpa using v
  have hprevn := v'.prevn n
  have hbsize : s.toSubstring.bsize = String.utf8Len s.data := v.bsize
  have hstr : s.toSubstring.str = s := by
    have := v.str
    simpa using this
  have hstart : s.toSubstring.startPos = ⟨0⟩ := by
    have := v.startPos
    simpa using this
  have hsplit : s.data = (s.data.reverse.drop n).reverse ++ (s.data.reverse.take n).reverse := by
    rw [← List.reverse_append, List.take_append_drop]
    simp
  have hsub : s.toSubstring.dropRight n =
      ⟨s, ⟨0⟩, ⟨0⟩ + ⟨String.utf8Len (s.data.reverse.drop n)⟩⟩ := by
    rw [substring_dropRight_eq, hstr, hstart, hbsize]
    rw [show (⟨String.utf8Len s.data⟩ : String.Pos) = ⟨String.utf8Len s.data.reverse⟩ by
      rw [String.utf8Len_reverse]]
    rw [hprevn]
  have vres : Substring.ValidFor [] ((s.data.reverse.drop n).reverse)
      ((s.data.reverse.take n).reverse) (s.toSubstring.dropRight n) := by
    rw [hsub]
    refine Substring.ValidFor.of_eq _ ?_ ?_ ?_
    · simpa using hsplit
    · rfl
    · simp
  have hts : (s.toSubstring.dropRight n).toString = ⟨(s.data.reverse.drop n).reverse⟩ :=
    vres.toString
  rw [show s.dropRight n = (s.toSubstring.dropRight n).toString from rfl, hts]

theorem data_inj {s t : String} (h : s.data = t.data) : s = t := by
  cases s; cases t; exact congrArg String.mk h

theorem pad2_data_length : ∀ m, m < 60 → (pad2 m).data.length = 2 := by decide

/-- Two zero-padded minute fields below 60 with the same tens digit
agree after their final character is dropped. -/
theorem pad2_drop_tens : ∀ a, a < 60 → ∀ b, b < 60 → a / 10 = b / 10 →
    ((pad2 a).data.reverse.drop 1).reverse = ((pad2 b).data.reverse.drop 1).reverse := by
  decide

/-- Dropping the last character of `s ++ pad2 m` only truncates the
minute field, and two same-tens minutes give the same result. -/
theorem append_pad2_dropRight {A : String} {m1 m2 : Nat} (h1 : m1 < 60) (h2 : m2 < 60)
    (ht : m1 / 10 = m2 / 10) :
    (A ++ pad2 m1).dropRight 1 = (A ++ pad2 m2).dropRight 1 := by
  apply data_inj
  rw [dropRight_data, dropRight_data, String.data_append, String.data_append,
    List.reverse_append, List.reverse_append,
    List.drop_append_of_le_length (by simp [pad2_data_length _ h1]),
    List.drop_append_of_le_length (by simp [pad2_data_length _ h2]),
    List.reverse_append, List.reverse_append, pad2_drop_tens _ h1 _ h2 ht]

/-! ## Remaining helper lemmas -/

theorem grandfatherson_nil (q : Quotas) : grandfatherson [] q = none := rfl

theorem ruleLabels_length (g : Gran) (dts : List DateTime) :
    (ruleLabels g dts).length = dts.length := by
  unfold ruleLabels
  by_cases h : 0 < g.drop
  · rw [if_pos h]; simp
  · rw [if_neg h]; simp

theorem getD_last_eq_getLast : ∀ (l : List DateTime) (h : l ≠ []) (dflt : DateTime),
    l.getD (l.length - 1) dflt = l.getLast h := by
  intro l
  induction l with
  | nil => intro h; exact absurd rfl h
  | cons a as ih =>
    intro h dflt
    by_cases has : as = []
    · subst has; rfl
    · rw [List.getLast_cons has, ← ih has dflt]
      have hlen : 0 < as.length := List.length_pos.mpr has
      have : (a :: as).length - 1 = (as.length - 1) + 1 := by simp; omega
      rw [this, List.getD_cons_succ]

theorem bIdx_lt (labels : List String) : ∀ (fuel i k : Nat),
    k ∈ bIdx labels i fuel → k < i + fuel := by
  intro fuel
  induction fuel with
  | zero => intro i k h; simp [bIdx] at h
  | succ fuel ih =>
    intro i k h
    rw [bIdx] at h
    by_cases hb : labels.getD i "" ≠ labels.getD (i + 1) ""
    · rw [if_pos hb] at h
      rcases List.mem_cons.mp h with rfl | h
      · omega
      · have := ih (i + 1) k h
        omega
    · rw [if_neg hb] at h
      have := ih (i + 1) k h
      omega

theorem Quotas.get_setGran (q : Quotas) (g h : Gran) (v : Int) :
    (q.setGran g v).get h = if h = g then v else q.get h := by
  cases g <;> cases h <;> simp [Quotas.setGran, Quotas.get]

/-- `Sorted dge`: a later position is an older (or equal) timestamp. -/
theorem sorted_getD_le {l : List DateTime} (hs : l.Sorted dge) (dflt : DateTime) :
    ∀ j k, j ≤ k → k < l.length → l.getD k dflt ≤ l.getD j dflt := by
  intro j k hjk hk
  rcases Nat.eq_or_lt_of_le hjk with rfl | hlt
  · exact le_refl _
  · have hj : j < l.length := lt_trans hlt hk
    rw [List.getD_eq_getElem l dflt hk, List.getD_eq_getElem l dflt hj]
    exact List.pairwise_iff_get.mp hs ⟨j, hj⟩ ⟨k, hk⟩ hlt

theorem applyRule_tail (dts : List DateTime) (g : Gran) (need : Int) (flags : List Bool)
    (hpos : 0 < need) (hshort : ruleHave dts g need < need) (hne : 0 < flags.length) :
    (applyRule dts g need flags).getD (flags.length - 1) false = true :=
  (applyRule_getD dts g need flags _).mpr (Or.inr (Or.inr ⟨hpos, hshort, hne, rfl⟩))

/-- When a rule's scan finds fewer buckets than its positive quota, the
whole pipeline leaves the last position marked keep. -/
theorem runRules_tail (sorted : List DateTime) (q : Quotas) (g : Gran)
    (flags : List Bool) (hne : 0 < flags.length) (hpos : 0 < q.get g)
    (hshort : ruleHave sorted g (q.get g) < q.get g) :
    (runRules sorted q flags).getD (flags.length - 1) false = true := by
  have hext : ∀ (g2 : Gran) (need : Int) (f : List Bool) (k : Nat),
      f.getD k false = true → (applyRule sorted g2 need f).getD k false = true :=
    fun g2 need f k h => (applyRule_extends sorted g2 need f).2 k h
  have htail : ∀ f : List Bool, f.length = flags.length →
      (applyRule sorted g (q.get g) f).getD (flags.length - 1) false = true := by
    intro f hf
    have := applyRule_tail sorted g (q.get g) f hpos hshort (by omega)
    rwa [hf] at this
  simp only [runRules, granOrder, List.foldl]
  cases g
  case tenminutely =>
    exact hext _ _ _ _ (hext _ _ _ _ (hext _ _ _ _ (hext _ _ _ _ (htail flags rfl))))
  case hourly =>
    exact hext _ _ _ _ (hext _ _ _ _ (hext _ _ _ _
      (htail _ (applyRule_length sorted _ _ flags))))
  case daily =>
    exact hext _ _ _ _ (hext _ _ _ _
      (htail _ (by rw [applyRule_length, applyRule_length])))
  case weekly =>
    exact hext _ _ _ _
      (htail _ (by rw [applyRule_length, applyRule_length, applyRule_length]))
  case monthly =>
    exact htail _
      (by rw [applyRule_length, applyRule_length, applyRule_length, applyRule_length])

/-! ## The claims -/

/-- Extra concrete input: two timestamps on 2022-05-05 and one on
2022-05-04. -/
def dtsTwoDays : List DateTime :=
  [⟨2022, 5, 5, 10, 0, 0⟩, ⟨2022, 5, 5, 8, 0, 0⟩, ⟨2022, 5, 4, 0, 0, 0⟩]

/-- C1 refuted: with `daily = -1` and four timestamps on four distinct
days, only the newest timestamp is kept — 2022-05-04, a distinct daily
bucket of the input, is not in the keep output, because
`if have > need or need < 0: break` stops the scan at the first
boundary when the quota is negative. -/
theorem C1_counterexample :
    grandfatherson dtsNone { daily := -1 } =
      some ([⟨2022, 5, 5, 0, 0, 0⟩],
            [⟨2022, 5, 4, 0, 0, 0⟩, ⟨2022, 5, 2, 0, 0, 0⟩, ⟨2022, 5, 1, 0, 0, 0⟩]) ∧
    (⟨2022, 5, 4, 0, 0, 0⟩ : DateTime) ∉ [(⟨2022, 5, 5, 0, 0, 0⟩ : DateTime)] := by
  decide

/-- C1 (amended): for a granularity whose quota is negative, the scan
is not unbounded — it breaks immediately after marking the first bucket
boundary, so the rule marks at most that one position and applies no
forced tail-keep; in particular with `daily = -1` and four distinct
days only the newest timestamp is kept. -/
theorem C1_negative_quota_first_boundary (dts : List DateTime) (g : Gran)
    (need : Int) (flags : List Bool) (hneg : need < 0) :
    applyRule dts g need flags =
      setAll ((bIdx (ruleLabels g dts) 0 ((ruleLabels g dts).length - 1)).take 1)
        flags := by
  simp only [applyRule]
  rw [if_neg (show ¬need = 0 by omega), scanAux_eq]
  split
  next hcond => exact absurd hcond.1 (by omega)
  next hcond => rw [scanMarks_neg _ _ hneg]

/-- Witness for C1's amended theorem at `daily = -1` on the
four-distinct-days input. -/
theorem C1_negative_quota_first_boundary_witness :
    applyRule dtsNone Gran.daily (-1) (initFlags 4) =
      setAll ((bIdx (ruleLabels Gran.daily dtsNone) 0
        ((ruleLabels Gran.daily dtsNone).length - 1)).take 1) (initFlags 4) :=
  C1_negative_quota_first_boundary dtsNone Gran.daily (-1) (initFlags 4) (by decide)

/-- C2 refuted: on the empty input the function does not return a pair
of empty sequences — `keep_flags[0] = True` raises `IndexError`,
modelled here as `none`. -/
theorem C2_counterexample : grandfatherson [] { } = none := rfl

/-- C2 (amended): the classifier returns without error for every
NON-EMPTY input and any quotas; the empty input raises `IndexError`. -/
theorem C2_total_on_nonempty (dts : List DateTime) (q : Quotas) (h : dts ≠ []) :
    ∃ res, grandfatherson dts q = some res :=
  ⟨_, grandfatherson_spec dts q h⟩

/-- Witness for C2's amended theorem. -/
theorem C2_total_on_nonempty_witness :
    ∃ res, grandfatherson dtsNone { } = some res :=
  C2_total_on_nonempty dtsNone { } (by decide)

/-- C3: for every non-empty input and every quotas, the most recent
timestamp of the input is in the keep output. -/
theorem C3_always_keep_newest (dts : List DateTime) (q : Quotas) (h : dts ≠ []) :
    ∃ kp pr, grandfatherson dts q = some (kp, pr) ∧
      ∃ m, m ∈ kp ∧ ∀ d ∈ dts, d ≤ m := by
  obtain ⟨a, as, hs⟩ : ∃ a as, sortDesc dts = a :: as := by
    cases hsd : sortDesc dts with
    | nil => exact absurd hsd (sortDesc_ne_nil h)
    | cons a as => exact ⟨a, as, rfl⟩
  refine ⟨_, _, grandfatherson_spec dts q h, a, ?_, ?_⟩
  · have hflag : (runRules (sortDesc dts) q
        (initFlags (sortDesc dts).length)).getD 0 false = true := by
      apply (runRules_extends _ _ _).2
      rw [initFlags_getD]
      exact ⟨rfl, by rw [hs]; simp⟩
    have hmem := splitKeep_mem_keep
      (runRules (sortDesc dts) q (initFlags (sortDesc dts).length))
      (sortDesc dts) 0 a (by rw [hs]; simp) hflag
    have hget : (sortDesc dts).getD 0 a = a := by rw [hs]; simp
    rwa [hget] at hmem
  · intro d hd
    exact sorted_head_max (sortDesc_sorted dts) hs d ((sortDesc_perm dts).mem_iff.mpr hd)

/-- Witness for C3 on the four-distinct-days input with all-zero
quotas. -/
theorem C3_always_keep_newest_witness :
    ∃ kp pr, grandfatherson dtsNone { } = some (kp, pr) ∧
      ∃ m, m ∈ kp ∧ ∀ d ∈ dtsNone, d ≤ m :=
  C3_always_keep_newest dtsNone { } (by decide)

/-- C4: whenever the classifier returns, the keep and prune outputs
partition the input: lengths add up, their concatenation is a
permutation of the input (duplicates classified by position), and both
are in descending time order. -/
theorem C4_partition (dts : List DateTime) (q : Quotas) {kp pr : List DateTime}
    (h : grandfatherson dts q = some (kp, pr)) :
    kp.length + pr.length = dts.length ∧ List.Perm (kp ++ pr) dts ∧
      kp.Sorted dge ∧ pr.Sorted dge := by
  have hne : dts ≠ [] := by
    intro hnil
    subst hnil
    rw [grandfatherson_nil] at h
    exact Option.noConfusion h
  rw [grandfatherson_spec dts q hne] at h
  have e := Option.some.inj h
  have hkp : (splitKeep (runRules (sortDesc dts) q (initFlags (sortDesc dts).length))
      (sortDesc dts)).1 = kp := congrArg Prod.fst e
  have hpr : (splitKeep (runRules (sortDesc dts) q (initFlags (sortDesc dts).length))
      (sortDesc dts)).2 = pr := congrArg Prod.snd e
  have hflen : (runRules (sortDesc dts) q (initFlags (sortDesc dts).length)).length =
      (sortDesc dts).length := by
    rw [runRules_length, initFlags_length]
  have hperm : List.Perm (kp ++ pr) dts := by
    rw [← hkp, ← hpr]
    exact (splitKeep_perm _ _ hflen).trans (sortDesc_perm dts)
  refine ⟨?_, hperm, ?_, ?_⟩
  · have := hperm.length_eq
    simpa using this
  · rw [← hkp]
    exact List.Pairwise.sublist (splitKeep_keep_sublist _ _) (sortDesc_sorted dts)
  · rw [← hpr]
    exact List.Pairwise.sublist (splitKeep_prune_sublist _ _) (sortDesc_sorted dts)

/-- Witness for C4 on the four-distinct-days input with all-zero
quotas. -/
theorem C4_partition_witness :
    ([⟨2022, 5, 5, 0, 0, 0⟩] : List DateTime).length +
      ([⟨2022, 5, 4, 0, 0, 0⟩, ⟨2022, 5, 2, 0, 0, 0⟩,
        ⟨2022, 5, 1, 0, 0, 0⟩] : List DateTime).length = dtsNone.length ∧
    List.Perm ([⟨2022, 5, 5, 0, 0, 0⟩] ++
      [⟨2022, 5, 4, 0, 0, 0⟩, ⟨2022, 5, 2, 0, 0, 0⟩, ⟨2022, 5, 1, 0, 0, 0⟩]) dtsNone ∧
    List.Sorted dge [⟨2022, 5, 5, 0, 0, 0⟩] ∧
    List.Sorted dge [⟨2022, 5, 4, 0, 0, 0⟩, ⟨2022, 5, 2, 0, 0, 0⟩, ⟨2022, 5, 1, 0, 0, 0⟩] :=
  C4_partition dtsNone { } (by decide)

/-- C5 refuted: 17:25 and 17:20 share a ten-minutely bucket label, and
17:25 is the more recent, yet on the test input the rule keeps 17:20
(the oldest member of the bucket) and prunes 17:25 — the marked
position is not the most-recent member of its bucket. -/
theorem C5_counterexample :
    (fmtYmdHM ⟨2022, 5, 5, 17, 25, 0⟩).dropRight 1 =
      (fmtYmdHM ⟨2022, 5, 5, 17, 20, 0⟩).dropRight 1 ∧
    (⟨2022, 5, 5, 17, 20, 0⟩ : DateTime) < ⟨2022, 5, 5, 17, 25, 0⟩ ∧
    grandfatherson dtsTenmin { tenminutely := 3 } =
      some ([⟨2022, 5, 5, 17, 30, 0⟩, ⟨2022, 5, 5, 17, 20, 0⟩, ⟨2022, 5, 5, 16, 50, 0⟩,
             ⟨2022, 5, 5, 16, 40, 0⟩],
            [⟨2022, 5, 5, 17, 25, 0⟩, ⟨2022, 5, 5, 16, 55, 0⟩, ⟨2022, 5, 5, 16, 30, 0⟩]) := by
  decide

/-- C5 (amended): every position the scan marks sits at a bucket
boundary — its label differs from the next (older) position's label,
so it is the last, i.e. OLDEST, member of its run of equal labels in
the descending-sorted list; on a sorted list it is older than (or equal
to) every position before it, in particular every more recent member of
its own bucket.  Each mark counts one distinct bucket. -/
theorem C5_marked_is_bucket_run_end (dts : List DateTime) (g : Gran) (need : Int)
    (k : Nat) (dflt : DateTime) (hsorted : dts.Sorted dge)
    (hmem : k ∈ ruleMarks dts g need) :
    (ruleLabels g dts).getD k "" ≠ (ruleLabels g dts).getD (k + 1) "" ∧
      k + 1 < dts.length ∧
      ∀ j, j ≤ k → dts.getD k dflt ≤ dts.getD j dflt := by
  have hb := scanMarks_boundary (ruleLabels g dts) need _ _ _ k hmem
  have hk : k < 0 + ((ruleLabels g dts).length - 1) :=
    bIdx_lt _ _ _ _ ((scanMarks_sublist _ _ _ _ _).mem hmem)
  rw [ruleLabels_length] at hk
  refine ⟨hb, by omega, fun j hj => ?_⟩
  exact sorted_getD_le hsorted dflt j k hj (by omega)

/-- Witness for C5's amended theorem: mark 2 of the ten-minutely scan
on the sorted test input (the 17:20 entry closing the 17:2x bucket). -/
theorem C5_marked_is_bucket_run_end_witness :
    (ruleLabels Gran.tenminutely (sortDesc dtsTenmin)).getD 2 "" ≠
      (ruleLabels Gran.tenminutely (sortDesc dtsTenmin)).getD 3 "" ∧
      2 + 1 < (sortDesc dtsTenmin).length ∧
      ∀ j, j ≤ 2 → (sortDesc dtsTenmin).getD 2 ⟨0, 0, 0, 0, 0, 0⟩ ≤
        (sortDesc dtsTenmin).getD j ⟨0, 0, 0, 0, 0, 0⟩ :=
  C5_marked_is_bucket_run_end (sortDesc dtsTenmin) Gran.tenminutely 3 2
    ⟨0, 0, 0, 0, 0, 0⟩ (by decide) (by decide)

/-- C6 refuted: raising the daily quota from -1 to 0 moves the 08:00
snapshot from keep to prune (negative marks the first bucket boundary,
zero disables the rule entirely). -/
theorem C6_counterexample :
    grandfatherson dtsTwoDays { daily := -1 } =
      some ([⟨2022, 5, 5, 10, 0, 0⟩, ⟨2022, 5, 5, 8, 0, 0⟩], [⟨2022, 5, 4, 0, 0, 0⟩]) ∧
    grandfatherson dtsTwoDays { daily := 0 } =
      some ([⟨2022, 5, 5, 10, 0, 0⟩],
            [⟨2022, 5, 5, 8, 0, 0⟩, ⟨2022, 5, 4, 0, 0, 0⟩]) := by
  decide

/-- C6 (amended): increasing one quota while holding the other four
fixed never moves a timestamp from keep to prune, EXCEPT when that
quota goes from a negative value to zero: the keep output under the
larger quota is a superlist of the old keep output whenever the change
is not negative-to-zero. -/
theorem C6_quota_monotone (dts : List DateTime) (q : Quotas) (g : Gran) (v : Int)
    (kp pr kp2 pr2 : List DateTime)
    (hle : q.get g ≤ v) (hnz : ¬(q.get g < 0 ∧ v = 0))
    (h1 : grandfatherson dts q = some (kp, pr))
    (h2 : grandfatherson dts (q.setGran g v) = some (kp2, pr2)) :
    kp.Sublist kp2 ∧ ∀ d ∈ kp, d ∈ kp2 := by
  have hne : dts ≠ [] := by
    intro hnil
    subst hnil
    rw [grandfatherson_nil] at h1
    exact Option.noConfusion h1
  rw [grandfatherson_spec dts q hne] at h1
  rw [grandfatherson_spec dts _ hne] at h2
  have e1 := Option.some.inj h1
  have e2 := Option.some.inj h2
  have hkp : (splitKeep (runRules (sortDesc dts) q (initFlags (sortDesc dts).length))
      (sortDesc dts)).1 = kp := congrArg Prod.fst e1
  have hkp2 : (splitKeep (runRules (sortDesc dts) (q.setGran g v)
      (initFlags (sortDesc dts).length)) (sortDesc dts)).1 = kp2 := congrArg Prod.fst e2
  have hq : ∀ h : Gran, q.get h ≤ (q.setGran g v).get h ∧
      ¬(q.get h < 0 ∧ (q.setGran g v).get h = 0) := by
    intro h
    rw [Quotas.get_setGran]
    by_cases hgh : h = g
    · rw [if_pos hgh]
      subst hgh
      exact ⟨hle, hnz⟩
    · rw [if_neg hgh]
      exact ⟨le_refl _, by omega⟩
  have hsub : kp.Sublist kp2 := by
    rw [← hkp, ← hkp2]
    exact splitKeep_keep_mono (sortDesc dts)
      (runRules_mono (sortDesc dts) hq (flagsLE_refl _))
  exact ⟨hsub, fun d hd => hsub.mem hd⟩

/-- Witness for C6's amended theorem: on the four-distinct-days input,
raising the daily quota from 0 to 3 only grows the keep output. -/
theorem C6_quota_monotone_witness :
    ([⟨2022, 5, 5, 0, 0, 0⟩] : List DateTime).Sublist
      [⟨2022, 5, 5, 0, 0, 0⟩, ⟨2022, 5, 4, 0, 0, 0⟩, ⟨2022, 5, 2, 0, 0, 0⟩] ∧
    ∀ d ∈ ([⟨2022, 5, 5, 0, 0, 0⟩] : List DateTime),
      d ∈ ([⟨2022, 5, 5, 0, 0, 0⟩, ⟨2022, 5, 4, 0, 0, 0⟩,
            ⟨2022, 5, 2, 0, 0, 0⟩] : List DateTime) :=
  C6_quota_monotone dtsNone { } Gran.daily 3
    [⟨2022, 5, 5, 0, 0, 0⟩]
    [⟨2022, 5, 4, 0, 0, 0⟩, ⟨2022, 5, 2, 0, 0, 0⟩, ⟨2022, 5, 1, 0, 0, 0⟩]
    [⟨2022, 5, 5, 0, 0, 0⟩, ⟨2022, 5, 4, 0, 0, 0⟩, ⟨2022, 5, 2, 0, 0, 0⟩]
    [⟨2022, 5, 1, 0, 0, 0⟩]
    (by decide) (by decide) (by decide) (by decide)

/-- C7 refuted: with `monthly = 3` on the nine-timestamp input, the
keep output does not contain the newest timestamp of each counted
month — 2022-04-20, the newest April timestamp, is pruned (2022-04-10,
the oldest April timestamp, is kept instead). -/
theorem C7_counterexample :
    grandfatherson dtsMonthly { monthly := 3 } =
      some ([⟨2022, 5, 5, 0, 0, 0⟩, ⟨2022, 5, 1, 0, 0, 0⟩, ⟨2022, 4, 10, 0, 0, 0⟩,
             ⟨2022, 3, 7, 0, 0, 0⟩],
            [⟨2022, 5, 4, 0, 0, 0⟩, ⟨2022, 5, 2, 0, 0, 0⟩, ⟨2022, 4, 20, 0, 0, 0⟩,
             ⟨2022, 3, 8, 0, 0, 0⟩, ⟨2022, 2, 8, 0, 0, 0⟩]) ∧
    (⟨2022, 4, 20, 0, 0, 0⟩ : DateTime) ∈
      [(⟨2022, 5, 4, 0, 0, 0⟩ : DateTime), ⟨2022, 5, 2, 0, 0, 0⟩, ⟨2022, 4, 20, 0, 0, 0⟩,
       ⟨2022, 3, 8, 0, 0, 0⟩, ⟨2022, 2, 8, 0, 0, 0⟩] := by
  decide

/-- C7 (amended): on the nine-timestamp February-through-May input with
`monthly = 3`, exactly 4 timestamps are kept — the newest, plus the
OLDEST timestamp in each of the three most recent distinct months
(May, April, March) — and the remaining 5 are pruned. -/
theorem C7_monthly_scenario :
    grandfatherson dtsMonthly { monthly := 3 } =
      some ([⟨2022, 5, 5, 0, 0, 0⟩, ⟨2022, 5, 1, 0, 0, 0⟩, ⟨2022, 4, 10, 0, 0, 0⟩,
             ⟨2022, 3, 7, 0, 0, 0⟩],
            [⟨2022, 5, 4, 0, 0, 0⟩, ⟨2022, 5, 2, 0, 0, 0⟩, ⟨2022, 4, 20, 0, 0, 0⟩,
             ⟨2022, 3, 8, 0, 0, 0⟩, ⟨2022, 2, 8, 0, 0, 0⟩]) := by
  decide

/-- C8: for a non-empty input and a granularity with positive quota, if
the scan's distinct-bucket counter stays strictly below the quota, the
oldest (last sorted) timestamp is kept: the keep output contains a
timestamp no more recent than any input timestamp. -/
theorem C8_forced_tail_keep (dts : List DateTime) (q : Quotas) (g : Gran)
    (h : dts ≠ []) (hpos : 0 < q.get g)
    (hshort : ruleHave (sortDesc dts) g (q.get g) < q.get g) :
    ∃ kp pr, grandfatherson dts q = some (kp, pr) ∧
      ∃ m, m ∈ kp ∧ ∀ d ∈ dts, m ≤ d := by
  have hne : sortDesc dts ≠ [] := sortDesc_ne_nil h
  have hlen0 : 0 < (sortDesc dts).length := List.length_pos.mpr hne
  refine ⟨_, _, grandfatherson_spec dts q h,
    (sortDesc dts).getD ((sortDesc dts).length - 1) ⟨0, 0, 0, 0, 0, 0⟩, ?_, ?_⟩
  · have hflag := runRules_tail (sortDesc dts) q g (initFlags (sortDesc dts).length)
      (by rw [initFlags_length]; exact hlen0) hpos hshort
    rw [initFlags_length] at hflag
    exact splitKeep_mem_keep _ (sortDesc dts) ((sortDesc dts).length - 1) _
      (by omega) hflag
  · intro d hd
    rw [getD_last_eq_getLast (sortDesc dts) hne]
    exact sorted_getLast_le (sortDesc_sorted dts) hne d ((sortDesc_perm dts).mem_iff.mpr hd)

/-- Witness for C8: input `[2022-05-05 10:00, 2022-05-04 10:00]` with
`daily = 3` — only one bucket boundary exists, fewer than the quota,
so the oldest timestamp is force-kept. -/
theorem C8_forced_tail_keep_witness :
    ∃ kp pr, grandfatherson [⟨2022, 5, 5, 10, 0, 0⟩, ⟨2022, 5, 4, 10, 0, 0⟩]
        { daily := 3 } = some (kp, pr) ∧
      ∃ m, m ∈ kp ∧ ∀ d ∈ [(⟨2022, 5, 5, 10, 0, 0⟩ : DateTime), ⟨2022, 5, 4, 10, 0, 0⟩],
        m ≤ d :=
  C8_forced_tail_keep [⟨2022, 5, 5, 10, 0, 0⟩, ⟨2022, 5, 4, 10, 0, 0⟩] { daily := 3 }
    Gran.daily (by decide) (by decide) (by decide)

/-- C9: the ten-minutely rule's bucket label is the
`%Y-%m-%d-%H-%M`-formatted string with its last character dropped, and
two timestamps agreeing on year, month, day and hour whose minutes
share a tens digit receive equal labels. -/
theorem C9_tenminutely_label (d1 d2 : DateTime)
    (hm1 : d1.minute < 60) (hm2 : d2.minute < 60)
    (hy : d1.year = d2.year) (hmo : d1.month = d2.month)
    (hda : d1.day = d2.day) (hh : d1.hour = d2.hour)
    (ht : d1.minute / 10 = d2.minute / 10) :
    (∀ dts, ruleLabels Gran.tenminutely dts =
      dts.map fun d => (fmtYmdHM d).dropRight 1) ∧
    (fmtYmdHM d1).dropRight 1 = (fmtYmdHM d2).dropRight 1 := by
  constructor
  · intro dts
    simp [ruleLabels, Gran.fmt, Gran.drop]
  · unfold fmtYmdHM
    rw [hy, hmo, hda, hh]
    exact append_pad2_dropRight hm1 hm2 ht

/-- Witness for C9: minutes 20 and 25 of the same hour share a
ten-minutely bucket label. -/
theorem C9_tenminutely_label_witness :
    (∀ dts, ruleLabels Gran.tenminutely dts =
      dts.map fun d => (fmtYmdHM d).dropRight 1) ∧
    (fmtYmdHM ⟨2022, 5, 5, 17, 20, 0⟩).dropRight 1 =
      (fmtYmdHM ⟨2022, 5, 5, 17, 25, 0⟩).dropRight 1 :=
  C9_tenminutely_label ⟨2022, 5, 5, 17, 20, 0⟩ ⟨2022, 5, 5, 17, 25, 0⟩
    (by decide) (by decide) rfl rfl rfl rfl (by decide)

/-- C10: the classifier's result depends only on the multiset of input
timestamps — permuting the input never changes either output, because
the input is sorted before any classification. -/
theorem C10_permutation_invariant (dts dts2 : List DateTime) (q : Quotas)
    (h : List.Perm dts dts2) : grandfatherson dts q = grandfatherson dts2 q := by
  unfold grandfatherson
  rw [sortDesc_eq_of_perm h]

/-- Witness for C10: the four-distinct-days input and its reverse
classify identically. -/
theorem C10_permutation_invariant_witness :
    grandfatherson dtsNone { } = grandfatherson dtsNone.reverse { } :=
  C10_permutation_invariant dtsNone dtsNone.reverse { } (List.reverse_perm dtsNone).symm
